import Mathlib

/-!
Shallow embedding of `funcs/func_coindetect.c` (Asterisk coin-detection
module) and verification of its specification claims.

Modelling conventions:
* C `float`/`double` arithmetic is modelled exactly over `ℚ`.  The
  transcendental library calls (`cos`, `sin`, `sqrt`) and the constant
  `M_PI` have no exact rational counterpart; they are abstracted as the
  fields of a `NumModel`, and every theorem quantifies over the model, so
  each result holds for whatever values the C library returns.
* C `int` counters are modelled as `ℤ` (none of the verified claims is
  about integer overflow).
* An `ast_frame` is reduced to the two projections the detector reads:
  the signed 16-bit sample list (`f->data.ptr` / `f->samples`) and the
  declared sample rate (`ast_format_get_sample_rate(f->subclass.format)`).
-/

namespace Coindetect

/-- Abstraction of the floating-point math library: `piv` models `M_PI`,
`cosv`, `sinv`, `sqrtv` model `cos`, `sin`, `sqrt` at the precision the C
runtime provides. -/
structure NumModel where
  piv : ℚ
  cosv : ℚ → ℚ
  sinv : ℚ → ℚ
  sqrtv : ℚ → ℚ

/-- C struct `goertzel_state_t` (`x1, x2, wr, wi, n`, all `float`). -/
structure goertzel_state_t where
  x1 : ℚ
  x2 : ℚ
  wr : ℚ
  wi : ℚ
  n : ℚ
  deriving DecidableEq, Repr

/-- C struct `detector_state`.  The `fd` field is carried along untouched,
exactly as in the source. -/
structure detector_state where
  cd_current_sample : ℤ
  tone_a : goertzel_state_t
  tone_b : goertzel_state_t
  incoin : ℤ
  hits : ℤ
  misses : ℤ
  coins : ℤ
  detector_rate : ℤ
  fd : ℤ
  deriving DecidableEq, Repr

/-- C struct `coindetect_data` (audiohook glue omitted): the two per-direction
detector states and the two enable flags. -/
structure coindetect_data where
  en_rx : Bool
  en_tx : Bool
  rx : detector_state
  tx : detector_state
  deriving DecidableEq, Repr

/-- The two fields of `struct ast_frame` that `coindetect_process` reads:
the 16-bit sample data and the sample rate of `f->subclass.format`. -/
structure ast_frame where
  samples : List ℤ
  rate : ℤ
  deriving DecidableEq, Repr

/-- `enum ast_audiohook_direction`. -/
inductive Direction where
  | read
  | write
  deriving DecidableEq, Repr

/-- C macro `COINDET_G_RATE`. -/
def COINDET_G_RATE : ℤ := 60

/-- C macro `COINDET_THRESH` (`.05`). -/
def COINDET_THRESH : ℚ := 5 / 100

/-- C cast `(int)` applied to a floating value: truncation toward zero.
On a reduced rational this is the numerator divided by the denominator
with the quotient rounded toward zero. -/
def c_trunc (q : ℚ) : ℤ :=
  Int.tdiv q.num (q.den : ℤ)

/-- C function `goertzel_sample`: fold one signed 16-bit sample into the
resonator (`x0 = sample/32786 + wr*x1 - x2; x2 = x1; x1 = x0`). -/
def goertzel_sample (s : goertzel_state_t) (sample : ℤ) : goertzel_state_t :=
  let x0 : ℚ := (sample : ℚ) / 32786
  let x0 := x0 + s.wr * s.x1 - s.x2
  { s with x2 := s.x1, x1 := x0 }

/-- C function `goertzel_result`:
`sqrt(((0.5*wr*x1 - x2)/n)^2 + ((wi*x1)/n)^2)`. -/
def goertzel_result (M : NumModel) (s : goertzel_state_t) : ℚ :=
  let re := (1 / 2 * s.wr * s.x1 - s.x2) / s.n
  let im := (s.wi * s.x1) / s.n
  M.sqrtv (re * re + im * im)

/-- C function `goertzel_init`: set coefficients `wr = 2 cos w`,
`wi = sin w` with `w = 2π freq / sample_rate`, zero the delay line and
store the block length `n`. -/
def goertzel_init (M : NumModel) (freq : ℚ) (sample_rate : ℤ) (n : ℤ) :
    goertzel_state_t :=
  let w := 2 * M.piv * freq / (sample_rate : ℚ)
  { x1 := 0, x2 := 0, wr := 2 * M.cosv w, wi := M.sinv w, n := (n : ℚ) }

/-- C function `goertzel_reset`: zero the delay line, keep coefficients. -/
def goertzel_reset (s : goertzel_state_t) : goertzel_state_t :=
  { s with x1 := 0, x2 := 0 }

/-- Block length computed on a rate change in `coindetect_process`:
`(int)(((float)rate / 8000.0f) * COINDET_G_RATE)`. -/
def adjusted_goertzel_rate (rate : ℤ) : ℤ :=
  c_trunc ((rate : ℚ) / 8000 * (COINDET_G_RATE : ℚ))

/-- The rate-change block of `coindetect_process` (lines 256-261): when the
frame's rate differs from `detector_rate`, re-init both estimators at the
new rate with the adjusted block length and store the new rate. -/
def coindetect_retune (M : NumModel) (rate : ℤ) (s : detector_state) :
    detector_state :=
  if rate ≠ s.detector_rate then
    let agr := adjusted_goertzel_rate rate
    { s with
      tone_a := goertzel_init M 1700 rate agr
      tone_b := goertzel_init M 2200 rate agr
      detector_rate := rate }
  else s

/-- Per-block decision (line 273):
`detect = (e1 > COINDET_THRESH) && (e2 > COINDET_THRESH)`. -/
def block_detect (p : ℚ × ℚ) : Bool :=
  decide (p.1 > COINDET_THRESH) && decide (p.2 > COINDET_THRESH)

/-- The two-state hysteresis block of `coindetect_process` (lines 275-301),
driven once per completed block by `detect`. -/
def debounce (s : detector_state) (detect : Bool) : detector_state :=
  if s.incoin ≠ 0 then
    let s1 := if detect then { s with misses := 0 }
              else { s with misses := s.misses + 1 }
    if s1.misses > 3 then { s1 with incoin := 0, hits := 0 } else s1
  else
    let s1 := if detect then { s with hits := s.hits + 1 }
              else { s with hits := 0 }
    if s1.hits > 3 then
      { s1 with incoin := 1, misses := 0, coins := s1.coins + 1 }
    else s1

/-- First half of the loop body of `coindetect_process` (lines 263-266):
feed the sample to both estimators and advance `cd_current_sample`. -/
def feed_sample (s : detector_state) (samp : ℤ) : detector_state :=
  { s with
    tone_a := goertzel_sample s.tone_a samp
    tone_b := goertzel_sample s.tone_b samp
    cd_current_sample := s.cd_current_sample + 1 }

/-- Second half of the loop body (lines 270-304), run when the block is
complete: reset `cd_current_sample`, read both magnitudes, form `detect`,
drive the debouncer, reset both estimators. -/
def finish_block (M : NumModel) (s : detector_state) : detector_state :=
  let s2 := { s with cd_current_sample := 0 }
  let e1 := goertzel_result M s2.tone_a
  let e2 := goertzel_result M s2.tone_b
  let s3 := debounce s2 (block_detect (e1, e2))
  { s3 with tone_a := goertzel_reset s3.tone_a, tone_b := goertzel_reset s3.tone_b }

/-- One iteration of the sample loop of `coindetect_process` (lines
262-305): feed the sample, then `continue` while
`cd_current_sample < tone_a.n` (int promoted to float), else finish the
block. -/
def process_sample (M : NumModel) (s : detector_state) (samp : ℤ) :
    detector_state :=
  let s1 := feed_sample s samp
  if (s1.cd_current_sample : ℚ) < s1.tone_a.n then s1 else finish_block M s1

/-- C function `coindetect_process`: retune on a rate change, then run the
sample loop over the frame's data. -/
def coindetect_process (M : NumModel) (f : ast_frame) (s : detector_state) :
    detector_state :=
  f.samples.foldl (process_sample M) (coindetect_retune M f.rate s)

/-- Frame-dispatch core of `coindetect_cb` (lines 156-160): WRITE frames go
to the tx detector, everything else to rx.  The enable flags are not
consulted by the source. -/
def coindetect_cb (M : NumModel) (cd : coindetect_data) (f : ast_frame)
    (direction : Direction) : coindetect_data :=
  if direction = Direction.write then
    { cd with tx := coindetect_process M f cd.tx }
  else
    { cd with rx := coindetect_process M f cd.rx }

/-- Detector state as produced by the creation path of `coindetect_write`
(`ast_calloc` zeroes the struct; lines 216-219 re-zero
`cd_current_sample` and `detector_rate`). -/
def initial_detector_state : detector_state :=
  { cd_current_sample := 0
    tone_a := { x1 := 0, x2 := 0, wr := 0, wi := 0, n := 0 }
    tone_b := { x1 := 0, x2 := 0, wr := 0, wi := 0, n := 0 }
    incoin := 0
    hits := 0
    misses := 0
    coins := 0
    detector_rate := 0
    fd := 0 }

/-- Session state as produced by the creation path of `coindetect_write`
(lines 212-221): zeroed detectors, both directions enabled. -/
def initial_coindetect_data : coindetect_data :=
  { en_rx := true
    en_tx := true
    rx := initial_detector_state
    tx := initial_detector_state }

/-- Processing a whole sequence of frames on one direction. -/
def coindetect_run (M : NumModel) (fs : List ast_frame) (s : detector_state) :
    detector_state :=
  fs.foldl (fun t f => coindetect_process M f t) s

/-- A concrete numeric model used to instantiate closed statements; the
theorems themselves hold for every model. -/
def trivModel : NumModel :=
  { piv := 0, cosv := fun _ => 0, sinv := fun _ => 0, sqrtv := fun _ => 0 }

/-- Instrumented variant of `process_sample` that additionally records the
`(e1, e2)` magnitude pair of every completed block.  Its first component
follows `process_sample` exactly (`process_sample_tr_fst`). -/
def process_sample_tr (M : NumModel) (p : detector_state × List (ℚ × ℚ))
    (samp : ℤ) : detector_state × List (ℚ × ℚ) :=
  let s1 := feed_sample p.1 samp
  if (s1.cd_current_sample : ℚ) < s1.tone_a.n then (s1, p.2)
  else (finish_block M s1,
        p.2 ++ [(goertzel_result M s1.tone_a, goertzel_result M s1.tone_b)])

/-- Instrumented variant of `coindetect_process` recording block results. -/
def coindetect_process_tr (M : NumModel) (f : ast_frame)
    (p : detector_state × List (ℚ × ℚ)) : detector_state × List (ℚ × ℚ) :=
  f.samples.foldl (process_sample_tr M) (coindetect_retune M f.rate p.1, p.2)

/-- Instrumented variant of `coindetect_run` recording block results. -/
def coindetect_run_tr (M : NumModel) (fs : List ast_frame)
    (p : detector_state × List (ℚ × ℚ)) : detector_state × List (ℚ × ℚ) :=
  fs.foldl (fun q f => coindetect_process_tr M f q) p

/-- The `(e1, e2)` magnitude pairs of all blocks completed while running a
frame sequence from state `s`. -/
def run_block_results (M : NumModel) (fs : List ast_frame)
    (s : detector_state) : List (ℚ × ℚ) :=
  (coindetect_run_tr M fs (s, [])).2

/-- The hysteresis-counter invariant maintained by `debounce`: out of a
pulse the hit streak is at most 3 and the miss streak at most 4, in a
pulse the miss streak is at most 3 and the hit streak at most 4. -/
def streak_inv (s : detector_state) : Prop :=
  0 ≤ s.hits ∧ 0 ≤ s.misses ∧
    (s.incoin = 0 → s.hits ≤ 3 ∧ s.misses ≤ 4) ∧
    (s.incoin ≠ 0 → s.hits ≤ 4 ∧ s.misses ≤ 3)

/-- A detector already tuned to 8000 Hz, for closed statements. -/
def state8k : detector_state :=
  { initial_detector_state with detector_rate := 8000 }

/-- A detector mid-block (five samples accumulated), for closed statements. -/
def state_cd5 : detector_state :=
  { initial_detector_state with cd_current_sample := 5 }

/-- A detector currently inside a pulse, for closed statements. -/
def state_incoin1 : detector_state :=
  { initial_detector_state with incoin := 1 }

/-- A fresh session whose tx direction has been marked disabled, for
closed statements. -/
def data_tx_disabled : coindetect_data :=
  { initial_coindetect_data with en_tx := false }

theorem foldl_invariant {α β : Type} (g : β → α → β) (P : β → Prop)
    (hg : ∀ s a, P s → P (g s a)) :
    ∀ (xs : List α) (s : β), P s → P (xs.foldl g s) := by
  intro xs
  induction xs with
  | nil => exact fun s hs => hs
  | cons a xs ih => exact fun s hs => ih _ (hg s a hs)

theorem debounce_detector_rate (s : detector_state) (d : Bool) :
    (debounce s d).detector_rate = s.detector_rate := by
  simp only [debounce]; split_ifs <;> rfl

theorem debounce_cd_current_sample (s : detector_state) (d : Bool) :
    (debounce s d).cd_current_sample = s.cd_current_sample := by
  simp only [debounce]; split_ifs <;> rfl

theorem debounce_coins_cases (s : detector_state) (d : Bool) :
    (debounce s d).coins = s.coins ∨
      ((debounce s d).coins = s.coins + 1 ∧ s.incoin = 0 ∧
        (debounce s d).incoin = 1) := by
  simp only [debounce]
  split_ifs <;> simp_all

theorem debounce_coins_mono (s : detector_state) (d : Bool) :
    s.coins ≤ (debounce s d).coins := by
  rcases debounce_coins_cases s d with h | ⟨h, -, -⟩ <;> omega

theorem debounce_coins_of_incoin (s : detector_state) (d : Bool)
    (h : s.incoin ≠ 0) : (debounce s d).coins = s.coins := by
  rcases debounce_coins_cases s d with h0 | ⟨-, h0, -⟩
  · exact h0
  · exact absurd h0 h

theorem debounce_false_coins (s : detector_state) :
    (debounce s false).coins = s.coins := by
  simp only [debounce]
  split_ifs <;> simp_all

theorem finish_block_detector_rate (M : NumModel) (s : detector_state) :
    (finish_block M s).detector_rate = s.detector_rate := by
  simp [finish_block, debounce_detector_rate]

theorem finish_block_coins_mono (M : NumModel) (s : detector_state) :
    s.coins ≤ (finish_block M s).coins := by
  simp only [finish_block]
  exact debounce_coins_mono _ _

theorem process_sample_detector_rate (M : NumModel) (s : detector_state)
    (a : ℤ) : (process_sample M s a).detector_rate = s.detector_rate := by
  simp only [process_sample]
  split_ifs
  · rfl
  · rw [finish_block_detector_rate]; rfl

theorem process_sample_coins_mono (M : NumModel) (s : detector_state)
    (a : ℤ) : s.coins ≤ (process_sample M s a).coins := by
  simp only [process_sample]
  split_ifs
  · exact le_refl _
  · exact finish_block_coins_mono M (feed_sample s a)

theorem coindetect_retune_counters (M : NumModel) (rate : ℤ)
    (s : detector_state) :
    (coindetect_retune M rate s).cd_current_sample = s.cd_current_sample ∧
    (coindetect_retune M rate s).incoin = s.incoin ∧
    (coindetect_retune M rate s).hits = s.hits ∧
    (coindetect_retune M rate s).misses = s.misses ∧
    (coindetect_retune M rate s).coins = s.coins ∧
    (coindetect_retune M rate s).fd = s.fd := by
  unfold coindetect_retune
  split_ifs <;> exact ⟨rfl, rfl, rfl, rfl, rfl, rfl⟩

theorem coindetect_process_detector_rate (M : NumModel) (f : ast_frame)
    (s : detector_state) (h : f.rate ≠ s.detector_rate) :
    (coindetect_process M f s).detector_rate = f.rate := by
  unfold coindetect_process
  have hbase : (coindetect_retune M f.rate s).detector_rate = f.rate := by
    unfold coindetect_retune
    rw [if_pos h]
  exact foldl_invariant (process_sample M)
    (fun t => t.detector_rate = f.rate)
    (fun t a ht => (process_sample_detector_rate M t a).trans ht)
    f.samples _ hbase

theorem coindetect_process_coins_mono (M : NumModel) (f : ast_frame)
    (s : detector_state) : s.coins ≤ (coindetect_process M f s).coins := by
  unfold coindetect_process
  have hbase : s.coins ≤ (coindetect_retune M f.rate s).coins := by
    rw [(coindetect_retune_counters M f.rate s).2.2.2.2.1]
  exact foldl_invariant (process_sample M)
    (fun t => s.coins ≤ t.coins)
    (fun t a ht => le_trans ht (process_sample_coins_mono M t a))
    f.samples _ hbase

theorem coindetect_retune_eq_of_ne (M : NumModel) (rate : ℤ)
    (s : detector_state) (h : rate ≠ s.detector_rate) :
    coindetect_retune M rate s =
      { s with
        tone_a := goertzel_init M 1700 rate (adjusted_goertzel_rate rate)
        tone_b := goertzel_init M 2200 rate (adjusted_goertzel_rate rate)
        detector_rate := rate } := by
  simp only [coindetect_retune]
  rw [if_pos h]

theorem coindetect_retune_eq_self (M : NumModel) (rate : ℤ)
    (s : detector_state) (h : rate = s.detector_rate) :
    coindetect_retune M rate s = s := by
  simp only [coindetect_retune]
  rw [if_neg (not_not_intro h)]

theorem adjusted_goertzel_rate_8000 : adjusted_goertzel_rate 8000 = 60 := by
  have h : ((8000 : ℤ) : ℚ) / 8000 * ((COINDET_G_RATE : ℤ) : ℚ) = 60 := by
    norm_num [COINDET_G_RATE]
  rw [adjusted_goertzel_rate, h]
  decide

theorem adjusted_goertzel_rate_16000 : adjusted_goertzel_rate 16000 = 120 := by
  have h : ((16000 : ℤ) : ℚ) / 8000 * ((COINDET_G_RATE : ℤ) : ℚ) = 120 := by
    norm_num [COINDET_G_RATE]
  rw [adjusted_goertzel_rate, h]
  decide

/-- C1 (counterexample): at 8000 Hz the retune sets the estimators' block
length to 60 samples, not round(8000 / COINDET_G_RATE) = 133 as the claim
states. -/
theorem claim1_counterexample :
    (coindetect_retune trivModel 8000 initial_detector_state).tone_a.n = 60 ∧
    (coindetect_retune trivModel 8000 initial_detector_state).tone_a.n ≠ 133 := by
  rw [coindetect_retune_eq_of_ne trivModel 8000 initial_detector_state
    (by decide)]
  simp only [goertzel_init]
  rw [adjusted_goertzel_rate_8000]
  norm_num

/-- C1 (amended): for every frame whose sample rate differs from
`detector_rate`, the retune recomputes the block length as
`n = trunc((rate / 8000) * COINDET_G_RATE)` — 60 samples at 8000 Hz and
120 samples at 16000 Hz — and re-initializes both Goertzel estimators
with this `n` before the frame's samples are processed. -/
theorem claim1_retune_block_length (M : NumModel) (f : ast_frame)
    (s : detector_state) (h : f.rate ≠ s.detector_rate) :
    coindetect_process M f s =
      f.samples.foldl (process_sample M) (coindetect_retune M f.rate s) ∧
    (coindetect_retune M f.rate s).tone_a =
      goertzel_init M 1700 f.rate (adjusted_goertzel_rate f.rate) ∧
    (coindetect_retune M f.rate s).tone_b =
      goertzel_init M 2200 f.rate (adjusted_goertzel_rate f.rate) ∧
    (coindetect_retune M f.rate s).tone_a.n =
      ((adjusted_goertzel_rate f.rate : ℤ) : ℚ) ∧
    adjusted_goertzel_rate 8000 = 60 ∧ adjusted_goertzel_rate 16000 = 120 := by
  refine ⟨rfl, ?_⟩
  rw [coindetect_retune_eq_of_ne M f.rate s h]
  exact ⟨rfl, rfl, rfl, adjusted_goertzel_rate_8000,
    adjusted_goertzel_rate_16000⟩

/-- C1 (witness): the amended retune statement instantiated on a concrete
8000 Hz frame arriving at a fresh detector. -/
theorem claim1_retune_block_length_witness :
    ((⟨[], 8000⟩ : ast_frame).rate ≠ initial_detector_state.detector_rate) ∧
    (coindetect_retune trivModel 8000 initial_detector_state).tone_a =
      goertzel_init trivModel 1700 8000 (adjusted_goertzel_rate 8000) ∧
    adjusted_goertzel_rate 8000 = 60 :=
  ⟨by decide,
   (claim1_retune_block_length trivModel ⟨[], 8000⟩ initial_detector_state
     (by decide)).2.1,
   (claim1_retune_block_length trivModel ⟨[], 8000⟩ initial_detector_state
     (by decide)).2.2.2.2.1⟩

/-- C2: starting from Idle (`incoin = 0`) with `hits = 0`, three detected
blocks leave the debouncer in Idle with the coin count unchanged, the
fourth detected block enters InPulse and increments the count by exactly
one, and three detected blocks followed by a miss leave the count
unchanged and reset the hit streak to 0. -/
theorem claim2_debounce_four_blocks (s : detector_state)
    (h1 : s.incoin = 0) (h2 : s.hits = 0) :
    (debounce (debounce (debounce s true) true) true).incoin = 0 ∧
    (debounce (debounce (debounce s true) true) true).coins = s.coins ∧
    (debounce (debounce (debounce (debounce s true) true) true) true).incoin
      = 1 ∧
    (debounce (debounce (debounce (debounce s true) true) true) true).coins
      = s.coins + 1 ∧
    (debounce (debounce (debounce (debounce s true) true) true) false).coins
      = s.coins ∧
    (debounce (debounce (debounce (debounce s true) true) true) false).hits
      = 0 := by
  have e1 : debounce s true = { s with hits := 1 } := by
    simp [debounce, h1, h2]
  have e2 : debounce { s with hits := 1 } true = { s with hits := 2 } := by
    simp [debounce, h1]
  have e3 : debounce { s with hits := 2 } true = { s with hits := 3 } := by
    simp [debounce, h1]
  have e4 : debounce { s with hits := 3 } true =
      { s with hits := 4, incoin := 1, misses := 0, coins := s.coins + 1 } := by
    simp [debounce, h1]
  have e5 : debounce { s with hits := 3 } false = { s with hits := 0 } := by
    simp [debounce, h1]
  rw [e1, e2, e3, e4, e5]
  exact ⟨h1, rfl, rfl, rfl, rfl, rfl⟩

/-- C2 (witness): the debounce statement instantiated on the fresh
detector state. -/
theorem claim2_debounce_four_blocks_witness :
    initial_detector_state.incoin = 0 ∧ initial_detector_state.hits = 0 ∧
    (debounce (debounce (debounce (debounce initial_detector_state true) true)
        true) true).coins = initial_detector_state.coins + 1 :=
  ⟨rfl, rfl,
   (claim2_debounce_four_blocks initial_detector_state rfl rfl).2.2.2.1⟩

/-- C3 (counterexample): a zero-rate frame fed to a detector tuned to
8000 Hz is not rejected or skipped: the detector state changes (its
`detector_rate` becomes 0). -/
theorem claim3_counterexample :
    coindetect_process trivModel ⟨[], 0⟩ state8k ≠ state8k := by
  have h : (coindetect_process trivModel ⟨[], 0⟩ state8k).detector_rate = 0 :=
    coindetect_process_detector_rate trivModel ⟨[], 0⟩ state8k (by decide)
  intro he
  rw [he] at h
  exact absurd h (by decide)

/-- C3 (amended): `coindetect_process` performs no sample-rate validation:
a frame with nonpositive declared rate is processed like any other, and
when its rate differs from the stored `detector_rate` the retune stores
the nonpositive rate — the frame is not skipped and the accumulated state
is mutated. -/
theorem claim3_no_rate_validation (M : NumModel) (f : ast_frame)
    (s : detector_state) (hle : f.rate ≤ 0) (hne : f.rate ≠ s.detector_rate) :
    (coindetect_process M f s).detector_rate = f.rate ∧
    (coindetect_process M f s).detector_rate ≤ 0 ∧
    coindetect_process M f s ≠ s := by
  have h := coindetect_process_detector_rate M f s hne
  refine ⟨h, h ▸ hle, ?_⟩
  intro he
  rw [he] at h
  exact hne h.symm

/-- C3 (witness): the no-validation statement instantiated on a zero-rate
frame arriving at a detector tuned to 8000 Hz. -/
theorem claim3_no_rate_validation_witness :
    ((⟨[], 0⟩ : ast_frame).rate ≤ 0) ∧
    ((⟨[], 0⟩ : ast_frame).rate ≠ state8k.detector_rate) ∧
    (coindetect_process trivModel ⟨[], 0⟩ state8k).detector_rate = 0 ∧
    coindetect_process trivModel ⟨[], 0⟩ state8k ≠ state8k :=
  ⟨by decide, by decide,
   (claim3_no_rate_validation trivModel ⟨[], 0⟩ state8k (by decide)
     (by decide)).1,
   (claim3_no_rate_validation trivModel ⟨[], 0⟩ state8k (by decide)
     (by decide)).2.2⟩

/-- C4 (counterexample): with the tx enable flag cleared, a WRITE frame
still mutates the tx detector (its `detector_rate` changes), so a
"disabled" direction is not ignored. -/
theorem claim4_counterexample :
    (coindetect_cb trivModel data_tx_disabled ⟨[], 8000⟩ Direction.write).tx ≠
      data_tx_disabled.tx := by
  have h : (coindetect_cb trivModel data_tx_disabled ⟨[], 8000⟩
        Direction.write).tx
      = coindetect_process trivModel ⟨[], 8000⟩ data_tx_disabled.tx := rfl
  rw [h]
  have h2 : (coindetect_process trivModel ⟨[], 8000⟩
      data_tx_disabled.tx).detector_rate = 8000 :=
    coindetect_process_detector_rate trivModel ⟨[], 8000⟩ data_tx_disabled.tx
      (by decide)
  intro he
  rw [he] at h2
  exact absurd h2 (by decide)

/-- C4 (amended): the enable flags `en_rx`/`en_tx` are set at creation but
never consulted: `coindetect_cb` dispatches every frame to the direction's
detector regardless of the flags, and its result depends on them only by
carrying them through. -/
theorem claim4_enable_flags_ignored (M : NumModel) (cd : coindetect_data)
    (f : ast_frame) (b1 b2 : Bool) (dir : Direction) :
    coindetect_cb M { cd with en_rx := b1, en_tx := b2 } f dir =
      { coindetect_cb M cd f dir with en_rx := b1, en_tx := b2 } ∧
    (coindetect_cb M cd f Direction.write).tx = coindetect_process M f cd.tx ∧
    (coindetect_cb M cd f Direction.read).rx = coindetect_process M f cd.rx := by
  refine ⟨?_, rfl, rfl⟩
  cases dir <;> simp [coindetect_cb]

/-- C5 (counterexample): a rate change arriving mid-block (five samples
accumulated) does not reset `cd_current_sample` to 0. -/
theorem claim5_counterexample :
    (coindetect_process trivModel ⟨[], 8000⟩ state_cd5).cd_current_sample
      ≠ 0 := by
  have h : coindetect_process trivModel ⟨[], 8000⟩ state_cd5
      = coindetect_retune trivModel 8000 state_cd5 := rfl
  rw [h, coindetect_retune_eq_of_ne trivModel 8000 state_cd5 (by decide)]
  decide

/-- C5 (amended): on a rate change the retune re-initializes both
estimators at the new rate and stores it, but leaves `cd_current_sample`
unchanged — so the first block after a rate change may integrate over
fewer than `n` samples. -/
theorem claim5_retune_keeps_sample_index (M : NumModel) (rate : ℤ)
    (s : detector_state) (h : rate ≠ s.detector_rate) :
    (coindetect_retune M rate s).cd_current_sample = s.cd_current_sample ∧
    (coindetect_retune M rate s).tone_a =
      goertzel_init M 1700 rate (adjusted_goertzel_rate rate) ∧
    (coindetect_retune M rate s).tone_b =
      goertzel_init M 2200 rate (adjusted_goertzel_rate rate) ∧
    (coindetect_retune M rate s).detector_rate = rate := by
  rw [coindetect_retune_eq_of_ne M rate s h]
  exact ⟨rfl, rfl, rfl, rfl⟩

/-- C5 (witness): the retune statement instantiated on a detector that is
five samples into a block. -/
theorem claim5_retune_keeps_sample_index_witness :
    ((8000 : ℤ) ≠ state_cd5.detector_rate) ∧
    (coindetect_retune trivModel 8000 state_cd5).cd_current_sample =
      state_cd5.cd_current_sample :=
  ⟨by decide,
   (claim5_retune_keeps_sample_index trivModel 8000 state_cd5 (by decide)).1⟩

/-- C6 (counterexample): a zero-sample frame is not always a complete
no-op: when its rate differs from the stored one, the retune still runs
and the state changes. -/
theorem claim6_counterexample :
    coindetect_process trivModel ⟨[], 8000⟩ initial_detector_state ≠
      initial_detector_state := by
  have h : (coindetect_process trivModel ⟨[], 8000⟩
      initial_detector_state).detector_rate = 8000 :=
    coindetect_process_detector_rate trivModel ⟨[], 8000⟩
      initial_detector_state (by decide)
  intro he
  rw [he] at h
  exact absurd h (by decide)

/-- C6 (amended): a zero-sample frame performs no per-sample processing —
coins, streaks, pulse state and `cd_current_sample` are unchanged — and it
is a complete no-op exactly when its rate matches the stored
`detector_rate`; otherwise the retune still runs. -/
theorem claim6_zero_sample_frame (M : NumModel) (f : ast_frame)
    (s : detector_state) (h : f.samples = []) :
    (coindetect_process M f s).coins = s.coins ∧
    (coindetect_process M f s).hits = s.hits ∧
    (coindetect_process M f s).misses = s.misses ∧
    (coindetect_process M f s).incoin = s.incoin ∧
    (coindetect_process M f s).cd_current_sample = s.cd_current_sample ∧
    (f.rate = s.detector_rate → coindetect_process M f s = s) := by
  have hp : coindetect_process M f s = coindetect_retune M f.rate s := by
    unfold coindetect_process
    rw [h, List.foldl_nil]
  obtain ⟨c1, c2, c3, c4, c5, -⟩ := coindetect_retune_counters M f.rate s
  refine ⟨hp ▸ c5, hp ▸ c3, hp ▸ c4, hp ▸ c2, hp ▸ c1, ?_⟩
  intro heq
  rw [hp, coindetect_retune_eq_self M f.rate s heq]

/-- C6 (witness): the zero-sample statement instantiated on a matching-rate
frame, where the frame is a complete no-op. -/
theorem claim6_zero_sample_frame_witness :
    ((⟨[], 8000⟩ : ast_frame).samples = []) ∧
    ((⟨[], 8000⟩ : ast_frame).rate = state8k.detector_rate) ∧
    coindetect_process trivModel ⟨[], 8000⟩ state8k = state8k :=
  ⟨rfl, rfl,
   (claim6_zero_sample_frame trivModel ⟨[], 8000⟩ state8k rfl).2.2.2.2.2 rfl⟩

theorem process_sample_tr_fst (M : NumModel) (p : detector_state × List (ℚ × ℚ))
    (a : ℤ) : (process_sample_tr M p a).1 = process_sample M p.1 a := by
  simp only [process_sample_tr, process_sample]
  split_ifs <;> rfl

theorem foldl_process_sample_tr_fst (M : NumModel) :
    ∀ (xs : List ℤ) (p : detector_state × List (ℚ × ℚ)),
      (xs.foldl (process_sample_tr M) p).1 = xs.foldl (process_sample M) p.1 := by
  intro xs
  induction xs with
  | nil => intro p; rfl
  | cons a xs ih =>
    intro p
    rw [List.foldl_cons, List.foldl_cons, ih, process_sample_tr_fst]

theorem coindetect_process_tr_fst (M : NumModel) (f : ast_frame)
    (p : detector_state × List (ℚ × ℚ)) :
    (coindetect_process_tr M f p).1 = coindetect_process M f p.1 :=
  foldl_process_sample_tr_fst M f.samples _

theorem process_sample_tr_trace_mono (M : NumModel)
    (p : detector_state × List (ℚ × ℚ)) (a : ℤ) :
    ∀ e ∈ p.2, e ∈ (process_sample_tr M p a).2 := by
  intro e he
  simp only [process_sample_tr]
  split_ifs
  · exact he
  · exact List.mem_append_left _ he

theorem foldl_process_sample_tr_trace_mono (M : NumModel) :
    ∀ (xs : List ℤ) (p : detector_state × List (ℚ × ℚ)) (e : ℚ × ℚ),
      e ∈ p.2 → e ∈ (xs.foldl (process_sample_tr M) p).2 := by
  intro xs
  induction xs with
  | nil => exact fun p e he => he
  | cons a xs ih =>
    intro p e he
    rw [List.foldl_cons]
    exact ih _ e (process_sample_tr_trace_mono M p a e he)

theorem coindetect_run_tr_trace_mono (M : NumModel) :
    ∀ (fs : List ast_frame) (p : detector_state × List (ℚ × ℚ)) (e : ℚ × ℚ),
      e ∈ p.2 → e ∈ (coindetect_run_tr M fs p).2 := by
  intro fs
  induction fs with
  | nil => exact fun p e he => he
  | cons f fs ih =>
    intro p e he
    exact ih _ e (foldl_process_sample_tr_trace_mono M f.samples _ e he)

theorem finish_block_coins_of_quiet (M : NumModel) (s : detector_state)
    (h : block_detect
      (goertzel_result M s.tone_a, goertzel_result M s.tone_b) = false) :
    (finish_block M s).coins = s.coins := by
  show (debounce { s with cd_current_sample := 0 }
    (block_detect
      (goertzel_result M s.tone_a, goertzel_result M s.tone_b))).coins = s.coins
  rw [h, debounce_false_coins]

theorem coins_eq_of_trace_quiet (M : NumModel) :
    ∀ (xs : List ℤ) (s : detector_state) (acc : List (ℚ × ℚ)),
      (∀ e ∈ (xs.foldl (process_sample_tr M) (s, acc)).2,
        block_detect e = false) →
      (xs.foldl (process_sample M) s).coins = s.coins := by
  intro xs
  induction xs with
  | nil => intro s acc h; rfl
  | cons a xs ih =>
    intro s acc h
    rw [List.foldl_cons] at h ⊢
    have hfst : (process_sample_tr M (s, acc) a).1 = process_sample M s a :=
      process_sample_tr_fst M (s, acc) a
    have hpair : (process_sample M s a, (process_sample_tr M (s, acc) a).2)
        = process_sample_tr M (s, acc) a := by
      rw [← hfst]
    have h2 := ih (process_sample M s a) (process_sample_tr M (s, acc) a).2
      (by rw [hpair]; exact h)
    rw [h2]
    by_cases hc : ((feed_sample s a).cd_current_sample : ℚ)
        < (feed_sample s a).tone_a.n
    · have hps : process_sample M s a = feed_sample s a := by
        simp only [process_sample]
        rw [if_pos hc]
      rw [hps]
      rfl
    · have hps : process_sample M s a = finish_block M (feed_sample s a) := by
        simp only [process_sample]
        rw [if_neg hc]
      have htr : process_sample_tr M (s, acc) a
          = (finish_block M (feed_sample s a),
             acc ++ [(goertzel_result M (feed_sample s a).tone_a,
                      goertzel_result M (feed_sample s a).tone_b)]) := by
        simp only [process_sample_tr]
        rw [if_neg hc]
      have hmem : (goertzel_result M (feed_sample s a).tone_a,
          goertzel_result M (feed_sample s a).tone_b)
          ∈ (process_sample_tr M (s, acc) a).2 := by
        rw [htr]
        exact List.mem_append_right _ (List.mem_singleton.mpr rfl)
      have hq := h _ (foldl_process_sample_tr_trace_mono M xs _ _ hmem)
      rw [hps]
      exact finish_block_coins_of_quiet M (feed_sample s a) hq

theorem coindetect_run_coins_quiet (M : NumModel) :
    ∀ (fs : List ast_frame) (s : detector_state) (acc : List (ℚ × ℚ)),
      (∀ e ∈ (coindetect_run_tr M fs (s, acc)).2, block_detect e = false) →
      (coindetect_run M fs s).coins = s.coins := by
  intro fs
  induction fs with
  | nil => intro s acc h; rfl
  | cons f fs ih =>
    intro s acc h
    have hfst : (coindetect_process_tr M f (s, acc)).1
        = coindetect_process M f s := coindetect_process_tr_fst M f (s, acc)
    have hpair : (coindetect_process M f s, (coindetect_process_tr M f (s, acc)).2)
        = coindetect_process_tr M f (s, acc) := by
      rw [← hfst]
    have h2 := ih (coindetect_process M f s)
      (coindetect_process_tr M f (s, acc)).2 (by rw [hpair]; exact h)
    have hq : ∀ e ∈ (coindetect_process_tr M f (s, acc)).2,
        block_detect e = false := by
      intro e he
      exact h e (coindetect_run_tr_trace_mono M fs _ e he)
    have hframe : (coindetect_process M f s).coins = s.coins := by
      have hsteps := coins_eq_of_trace_quiet M f.samples
        (coindetect_retune M f.rate s) acc hq
      exact hsteps.trans (coindetect_retune_counters M f.rate s).2.2.2.2.1
    show (coindetect_run M fs (coindetect_process M f s)).coins = s.coins
    rw [h2, hframe]

/-- C7: a completed block is detected exactly when both tone magnitudes
exceed `COINDET_THRESH`, so for a run in which every completed block has at
least one of the two magnitudes not exceeding the threshold (in particular
when one tone is absent throughout), no block is detected and the coin
count never changes. -/
theorem claim7_dual_tone_required (M : NumModel) (fs : List ast_frame)
    (s : detector_state)
    (h : ∀ e ∈ run_block_results M fs s,
      ¬ COINDET_THRESH < e.1 ∨ ¬ COINDET_THRESH < e.2) :
    (∀ p : ℚ × ℚ,
      block_detect p = true ↔ (COINDET_THRESH < p.1 ∧ COINDET_THRESH < p.2)) ∧
    (∀ e ∈ run_block_results M fs s, block_detect e = false) ∧
    (coindetect_run M fs s).coins = s.coins := by
  have hd : ∀ e ∈ run_block_results M fs s, block_detect e = false := by
    intro e he
    rcases h e he with hq | hq <;> simp [block_detect, hq]
  refine ⟨?_, hd, ?_⟩
  · intro p
    simp [block_detect]
  · exact coindetect_run_coins_quiet M fs s [] hd

/-- C7 (witness): the single-tone-rejection statement instantiated on the
empty run, whose block-result trace is empty. -/
theorem claim7_dual_tone_required_witness :
    (∀ e ∈ run_block_results trivModel [] initial_detector_state,
      ¬ COINDET_THRESH < e.1 ∨ ¬ COINDET_THRESH < e.2) ∧
    (coindetect_run trivModel [] initial_detector_state).coins =
      initial_detector_state.coins :=
  ⟨by simp [run_block_results, coindetect_run_tr],
   (claim7_dual_tone_required trivModel [] initial_detector_state
     (by simp [run_block_results, coindetect_run_tr])).2.2⟩

/-- C8: the coin count is monotonically non-decreasing across every
processed frame, and the debouncer increments it only on the
Idle-to-InPulse transition — never while `incoin` is already set. -/
theorem claim8_coins_monotone (M : NumModel) (f : ast_frame)
    (s t : detector_state) (d : Bool) :
    s.coins ≤ (coindetect_process M f s).coins ∧
    (t.incoin ≠ 0 → (debounce t d).coins = t.coins) ∧
    ((debounce t d).coins ≠ t.coins →
      t.incoin = 0 ∧ (debounce t d).incoin = 1 ∧
      (debounce t d).coins = t.coins + 1) := by
  refine ⟨coindetect_process_coins_mono M f s,
    fun h => debounce_coins_of_incoin t d h, ?_⟩
  intro hne
  rcases debounce_coins_cases t d with h0 | ⟨h1, h2, h3⟩
  · exact absurd h0 hne
  · exact ⟨h2, h3, h1⟩

/-- C8 (witness): the monotonicity statement instantiated with a detector
already inside a pulse, whose coin count a further block cannot change. -/
theorem claim8_coins_monotone_witness :
    state_incoin1.incoin ≠ 0 ∧
    (debounce state_incoin1 false).coins = state_incoin1.coins ∧
    initial_detector_state.coins ≤
      (coindetect_process trivModel ⟨[], 8000⟩ initial_detector_state).coins :=
  ⟨by decide,
   (claim8_coins_monotone trivModel ⟨[], 8000⟩ initial_detector_state
     state_incoin1 false).2.1 (by decide),
   (claim8_coins_monotone trivModel ⟨[], 8000⟩ initial_detector_state
     state_incoin1 false).1⟩

/-- C9: processing is deterministic — equal initial detector states fed the
same frame sequence end in equal states, with identical coin counts. -/
theorem claim9_determinism (M : NumModel) (fs : List ast_frame)
    (s t : detector_state) (h : s = t) :
    coindetect_run M fs s = coindetect_run M fs t ∧
    (coindetect_run M fs s).coins = (coindetect_run M fs t).coins := by
  subst h
  exact ⟨rfl, rfl⟩

/-- C9 (witness): the determinism statement instantiated on a concrete
one-frame run. -/
theorem claim9_determinism_witness :
    initial_detector_state = initial_detector_state ∧
    coindetect_run trivModel [⟨[], 8000⟩] initial_detector_state =
      coindetect_run trivModel [⟨[], 8000⟩] initial_detector_state :=
  ⟨rfl,
   (claim9_determinism trivModel [⟨[], 8000⟩] initial_detector_state
     initial_detector_state rfl).1⟩

theorem streak_inv_fields (s t : detector_state) (hh : t.hits = s.hits)
    (hm : t.misses = s.misses) (hi : t.incoin = s.incoin)
    (h : streak_inv s) : streak_inv t := by
  unfold streak_inv at h ⊢
  rw [hh, hm, hi]
  exact h

theorem debounce_streak_inv (s : detector_state) (d : Bool)
    (h : streak_inv s) : streak_inv (debounce s d) := by
  obtain ⟨h1, h2, h3, h4⟩ := h
  simp only [debounce]
  split_ifs <;> simp_all [streak_inv] <;> omega

theorem process_sample_streak_inv (M : NumModel) (s : detector_state)
    (a : ℤ) (h : streak_inv s) : streak_inv (process_sample M s a) := by
  simp only [process_sample]
  split_ifs
  · exact streak_inv_fields s _ rfl rfl rfl h
  · have h2 : streak_inv (debounce { feed_sample s a with cd_current_sample := 0 }
        (block_detect
          (goertzel_result M (feed_sample s a).tone_a,
           goertzel_result M (feed_sample s a).tone_b))) :=
      debounce_streak_inv _ _ (streak_inv_fields s _ rfl rfl rfl h)
    exact streak_inv_fields _ _ rfl rfl rfl h2

theorem coindetect_process_streak_inv (M : NumModel) (f : ast_frame)
    (s : detector_state) (h : streak_inv s) :
    streak_inv (coindetect_process M f s) := by
  unfold coindetect_process
  have h0 : streak_inv (coindetect_retune M f.rate s) := by
    obtain ⟨-, c2, c3, c4, -, -⟩ := coindetect_retune_counters M f.rate s
    exact streak_inv_fields s _ c3 c4 c2 h
  exact foldl_invariant (process_sample M) streak_inv
    (fun u a hu => process_sample_streak_inv M u a hu) f.samples _ h0

/-- C10: in every state reachable from the zeroed initial detector state
by processing frames, the streak counters stay within 0..4: each counter
forces a state flip as soon as it exceeds 3. -/
theorem claim10_streaks_bounded (M : NumModel) (fs : List ast_frame) :
    0 ≤ (coindetect_run M fs initial_detector_state).hits ∧
    (coindetect_run M fs initial_detector_state).hits ≤ 4 ∧
    0 ≤ (coindetect_run M fs initial_detector_state).misses ∧
    (coindetect_run M fs initial_detector_state).misses ≤ 4 := by
  have hinv : streak_inv (coindetect_run M fs initial_detector_state) := by
    refine foldl_invariant _ streak_inv
      (fun t f ht => coindetect_process_streak_inv M f t ht) fs
      initial_detector_state ?_
    unfold streak_inv
    exact ⟨by decide, by decide, fun _ => ⟨by decide, by decide⟩,
      fun hx => absurd (by decide) hx⟩
  obtain ⟨h1, h2, h3, h4⟩ := hinv
  rcases eq_or_ne (coindetect_run M fs initial_detector_state).incoin 0
    with hi | hi
  · obtain ⟨hb1, hb2⟩ := h3 hi
    exact ⟨h1, by omega, h2, by omega⟩
  · obtain ⟨hb1, hb2⟩ := h4 hi
    exact ⟨h1, by omega, h2, by omega⟩

end Coindetect
